import Mathlib

/-!
Shallow embedding of the stock-trading matching engine (engine.cpp).

The source keeps, for every ticker, two fixed arrays of 1024 pointers to
orders together with two monotonically increasing claim counters.  We model
a pointer array as a total map from slot index to an optional order (a null
pointer is none); prices, which the source stores as doubles and only ever
compares, are modelled as rationals; the 32-bit remaining quantity is a
natural number (the only mutation is subtracting the minimum of two
quantities, which never wraps).  The sequential semantics models the single
matching activity assumed by the source design.
-/

namespace StockEngine

/-- Capacity of each side array, MAX_ORDERS_PER_SIDE in the source. -/
def MAX_ORDERS_PER_SIDE : Nat := 1024

/-- Number of tickers, NUM_TICKERS in the source. -/
def NUM_TICKERS : Nat := 1024

/-- The Order record of the source.  The constructor narrows the 64-bit
global timestamp to a 32-bit field, which addOrder models with a mod. -/
structure Order where
  isBuy : Bool
  tickerIndex : Nat
  quantity : Nat
  price : ℚ
  timestamp : Nat
deriving DecidableEq, Repr

/-- One TickerOrderBook: the two pointer arrays (slot maps) and the two
atomic claim counters.  The counters can exceed the array capacity. -/
structure Book where
  buyOrders : Nat → Option Order
  sellOrders : Nat → Option Order
  buyCount : Nat
  sellCount : Nat

/-- Writing an order into a claimed slot. -/
def setSlot (slots : Nat → Option Order) (i : Nat) (o : Order) : Nat → Option Order :=
  fun n => if n = i then some o else slots n

/-- The whole engine: the global ticker array and the global timestamp. -/
structure EngineState where
  tickers : Nat → Book
  globalTimestamp : Nat

/-- A book with both counters zero and both arrays all null. -/
def initialBook : Book := ⟨fun _ => none, fun _ => none, 0, 0⟩

/-- Process start: every ticker has an empty book, timestamp zero. -/
def initialState : EngineState := ⟨fun _ => initialBook, 0⟩

/-- The per-book part of addOrder: claim the next index on the matching
side (fetch_add) and store the order only when the claimed index is below
capacity. -/
def bookAddOrder (b : Book) (o : Order) : Book :=
  if o.isBuy then
    if b.buyCount < MAX_ORDERS_PER_SIDE then
      { b with buyOrders := setSlot b.buyOrders b.buyCount o, buyCount := b.buyCount + 1 }
    else
      { b with buyCount := b.buyCount + 1 }
  else
    if b.sellCount < MAX_ORDERS_PER_SIDE then
      { b with sellOrders := setSlot b.sellOrders b.sellCount o, sellCount := b.sellCount + 1 }
    else
      { b with sellCount := b.sellCount + 1 }

/-- addOrder from the source: the global timestamp is consumed first, then
an out-of-range ticker returns with no further effect; otherwise the order
is built (timestamp narrowed to 32 bits) and appended to its side. -/
def addOrder (s : EngineState) (isBuy : Bool) (tickerSymbol quantity : Nat) (price : ℚ) :
    EngineState :=
  let timestamp := s.globalTimestamp
  let s1 : EngineState := { s with globalTimestamp := s.globalTimestamp + 1 }
  if NUM_TICKERS ≤ tickerSymbol then s1
  else
    { s1 with
      tickers := fun n =>
        if n = tickerSymbol then
          bookAddOrder (s1.tickers tickerSymbol)
            (Order.mk isBuy tickerSymbol quantity price (timestamp % 2 ^ 32))
        else s1.tickers n }

/-- One step of the best-buy scan loop: a non-null slot whose order has
positive remaining quantity and a price strictly above the running highest
price replaces the running best. -/
def buyStep (slots : Nat → Option Order) (acc : Option (Nat × Order) × ℚ) (i : Nat) :
    Option (Nat × Order) × ℚ :=
  match slots i with
  | some o => if 0 < o.quantity ∧ acc.2 < o.price then (some (i, o), o.price) else acc
  | none => acc

/-- The best-buy scan of matchOrdersForTicker: slots 0..count-1, starting
from a null best and the sentinel highest price -1.0. -/
def scanBuys (slots : Nat → Option Order) (count : Nat) : Option (Nat × Order) × ℚ :=
  (List.range count).foldl (buyStep slots) (none, -1)

/-- One step of the best-sell scan loop: a non-null slot whose order has
positive remaining quantity and a price strictly below the running lowest
price replaces the running best. -/
def sellStep (slots : Nat → Option Order) (acc : Option (Nat × Order) × ℚ) (i : Nat) :
    Option (Nat × Order) × ℚ :=
  match slots i with
  | some o => if 0 < o.quantity ∧ o.price < acc.2 then (some (i, o), o.price) else acc
  | none => acc

/-- The best-sell scan of matchOrdersForTicker: slots 0..count-1, starting
from a null best and the sentinel lowest price 1e9. -/
def scanSells (slots : Nat → Option Order) (count : Nat) : Option (Nat × Order) × ℚ :=
  (List.range count).foldl (sellStep slots) (none, 1000000000)

/-- A trade report line: matched quantity and execution price (the source
also prints the ticker index the pass was called with). -/
structure Trade where
  qty : Nat
  price : ℚ
deriving DecidableEq, Repr

/-- Decrement the remaining quantity of the order in slot i (fetch_sub
through the selected pointer). -/
def decSlot (slots : Nat → Option Order) (i : Nat) (q : Nat) : Nat → Option Order :=
  fun n =>
    if n = i then (slots n).map (fun o => { o with quantity := o.quantity - q })
    else slots n

/-- One iteration of the while loop of matchOrdersForTicker: reload both
counters, scan for the best buy and best sell, exit (none) when either is
null or the best buy price is below the best sell price, otherwise match
the minimum of the two remaining quantities, decrement both orders and
report the trade at the sell price. -/
def matchStep (b : Book) : Option (Book × Trade) :=
  match (scanBuys b.buyOrders b.buyCount).1, (scanSells b.sellOrders b.sellCount).1 with
  | some (i, bestBuy), some (j, bestSell) =>
    if bestBuy.price < bestSell.price then none
    else
      let matchQty := min bestBuy.quantity bestSell.quantity
      some
        ({ b with
            buyOrders := decSlot b.buyOrders i matchQty,
            sellOrders := decSlot b.sellOrders j matchQty },
          ⟨matchQty, bestSell.price⟩)
  | _, _ => none

/-- The while loop, with fuel; returns the final book and the trade
reports in order. -/
def matchLoop : Nat → Book → Book × List Trade
  | 0, b => (b, [])
  | Nat.succ fuel, b =>
    match matchStep b with
    | none => (b, [])
    | some (b1, tr) =>
      let r := matchLoop fuel b1
      (r.1, tr :: r.2)

/-- matchOrdersForTicker on one book.  The source loop runs until no cross
is found; the fuel buyCount + sellCount + 1 is proved sufficient below
(each executed cross makes at least one scanned order inert). -/
def matchOrdersForTicker (b : Book) : Book × List Trade :=
  matchLoop (b.buyCount + b.sellCount + 1) b

/-- A matching pass at engine level: run the loop on the chosen book. -/
def runMatchingPass (s : EngineState) (t : Nat) : EngineState × List Trade :=
  let r := matchOrdersForTicker (s.tickers t)
  ({ s with tickers := fun n => if n = t then r.1 else s.tickers n }, r.2)

/-- The two operations the external driver performs on the engine. -/
inductive EngineOp where
  | add (isBuy : Bool) (ticker quantity : Nat) (price : ℚ)
  | matchPass (ticker : Nat)

/-- Sequential execution of one driver operation. -/
def runOp (s : EngineState) : EngineOp → EngineState
  | .add isBuy t q p => addOrder s isBuy t q p
  | .matchPass t => (runMatchingPass s t).1

/-- Select one side of a book (true = buy). -/
def sideSlots (b : Book) (side : Bool) : Nat → Option Order :=
  if side then b.buyOrders else b.sellOrders

/-- The remaining quantity held in a slot (0 for a null slot). -/
def qtyAt (slots : Nat → Option Order) (i : Nat) : Nat :=
  ((slots i).map Order.quantity).getD 0

/-- Claimed slots holding an order with positive remaining quantity. -/
def eligSet (slots : Nat → Option Order) (count : Nat) : Finset Nat :=
  (Finset.range count).filter (fun i => 0 < qtyAt slots i)

/-- Number of eligible resting orders visible to a matching pass. -/
def eligibleCount (b : Book) : Nat :=
  (eligSet b.buyOrders b.buyCount).card + (eligSet b.sellOrders b.sellCount).card

/-- Well-formedness of one side: no order is stored at or beyond the
claimed count. -/
def sideWF (slots : Nat → Option Order) (count : Nat) : Prop :=
  ∀ i, count ≤ i → slots i = none

/-- Well-formedness of a book. -/
def bookWF (b : Book) : Prop :=
  sideWF b.buyOrders b.buyCount ∧ sideWF b.sellOrders b.sellCount

/-- Well-formedness of the engine state. -/
def stateWF (s : EngineState) : Prop := ∀ t, bookWF (s.tickers t)

/-! ### Definitions taken from the specification text (for refinement
claims about the best-order selection rule). -/

/-- Modelled from the spec: one step of selecting the strictly lowest
priced eligible sell, first-seen winning ties, with no price limit. -/
def specSellChooseAll (slots : Nat → Option Order) (best : Option (Nat × Order)) (i : Nat) :
    Option (Nat × Order) :=
  match slots i with
  | some o =>
    if 0 < o.quantity then
      match best with
      | none => some (i, o)
      | some p => if o.price < p.2.price then some (i, o) else some p
    else best
  | none => best

/-- Modelled from the spec: the sell order of strictly lowest price among
all eligible sells in slots 0..count-1, lowest slot index on ties. -/
def specBestSell (slots : Nat → Option Order) (count : Nat) : Option (Nat × Order) :=
  (List.range count).foldl (specSellChooseAll slots) none

/-- The same selection rule restricted to sells priced strictly below a
bound. -/
def specSellChooseBelow (slots : Nat → Option Order) (bound : ℚ)
    (best : Option (Nat × Order)) (i : Nat) : Option (Nat × Order) :=
  match slots i with
  | some o =>
    if 0 < o.quantity ∧ o.price < bound then
      match best with
      | none => some (i, o)
      | some p => if o.price < p.2.price then some (i, o) else some p
    else best
  | none => best

/-- Lowest-price first-seen selection among eligible sells priced strictly
below a bound. -/
def specBestSellBelow (slots : Nat → Option Order) (count : Nat) (bound : ℚ) :
    Option (Nat × Order) :=
  (List.range count).foldl (specSellChooseBelow slots bound) none

/-- Modelled from the spec: one step of selecting the strictly highest
priced eligible buy, first-seen winning ties, with no price limit. -/
def specBuyChooseAll (slots : Nat → Option Order) (best : Option (Nat × Order)) (i : Nat) :
    Option (Nat × Order) :=
  match slots i with
  | some o =>
    if 0 < o.quantity then
      match best with
      | none => some (i, o)
      | some p => if p.2.price < o.price then some (i, o) else some p
    else best
  | none => best

/-- Modelled from the spec: the buy order of strictly highest price among
all eligible buys in slots 0..count-1, lowest slot index on ties. -/
def specBestBuy (slots : Nat → Option Order) (count : Nat) : Option (Nat × Order) :=
  (List.range count).foldl (specBuyChooseAll slots) none

/-- The same selection rule restricted to buys priced strictly above a
bound. -/
def specBuyChooseAbove (slots : Nat → Option Order) (bound : ℚ)
    (best : Option (Nat × Order)) (i : Nat) : Option (Nat × Order) :=
  match slots i with
  | some o =>
    if 0 < o.quantity ∧ bound < o.price then
      match best with
      | none => some (i, o)
      | some p => if p.2.price < o.price then some (i, o) else some p
    else best
  | none => best

/-- Highest-price first-seen selection among eligible buys priced strictly
above a bound. -/
def specBestBuyAbove (slots : Nat → Option Order) (count : Nat) (bound : ℚ) :
    Option (Nat × Order) :=
  (List.range count).foldl (specBuyChooseAbove slots bound) none

/-- One buy submission of a (quantity, price) pair to ticker t. -/
def submitBuyStep (t : Nat) (s : EngineState) (qp : Nat × ℚ) : EngineState :=
  addOrder s true t qp.1 qp.2

/-- A sequence of buy submissions to one ticker from process start. -/
def submitBuys (t : Nat) (qps : List (Nat × ℚ)) : EngineState :=
  qps.foldl (submitBuyStep t) initialState

/-! ### Invariants of the two scan loops -/

/-- Invariant of the best-buy scan accumulator: a null best goes with the
sentinel price, a non-null best is an eligible claimed slot whose price the
accumulator carries. -/
def BuyInv (slots : Nat → Option Order) (count : Nat) (acc : Option (Nat × Order) × ℚ) :
    Prop :=
  (acc.1 = none → acc.2 = -1) ∧
  ∀ i o, acc.1 = some (i, o) →
    i < count ∧ slots i = some o ∧ 0 < o.quantity ∧ acc.2 = o.price

lemma buyStep_eq_some {slots : Nat → Option Order} {acc : Option (Nat × Order) × ℚ}
    {i : Nat} {o : Order} (hso : slots i = some o) :
    buyStep slots acc i =
      if 0 < o.quantity ∧ acc.2 < o.price then (some (i, o), o.price) else acc := by
  unfold buyStep
  rw [hso]

lemma buyStep_eq_none {slots : Nat → Option Order} {acc : Option (Nat × Order) × ℚ}
    {i : Nat} (hso : slots i = none) : buyStep slots acc i = acc := by
  unfold buyStep
  rw [hso]

lemma buyStep_inv {slots : Nat → Option Order} {count : Nat}
    {acc : Option (Nat × Order) × ℚ} {i : Nat} (hi : i < count)
    (h : BuyInv slots count acc) : BuyInv slots count (buyStep slots acc i) := by
  cases hso : slots i with
  | none => rw [buyStep_eq_none hso]; exact h
  | some o =>
    rw [buyStep_eq_some hso]
    by_cases hc : 0 < o.quantity ∧ acc.2 < o.price
    · rw [if_pos hc]
      refine ⟨by simp, fun j o2 hj => ?_⟩
      have hj2 : some (i, o) = some (j, o2) := hj
      cases hj2
      exact ⟨hi, hso, hc.1, rfl⟩
    · rw [if_neg hc]
      exact h

lemma buy_fold_inv {slots : Nat → Option Order} {count : Nat} :
    ∀ (l : List Nat) (acc : Option (Nat × Order) × ℚ), (∀ x ∈ l, x < count) →
      BuyInv slots count acc → BuyInv slots count (l.foldl (buyStep slots) acc)
  | [], _, _, h => h
  | x :: xs, acc, hl, h => by
    simp only [List.foldl_cons]
    exact buy_fold_inv xs _ (fun y hy => hl y (List.mem_cons_of_mem x hy))
      (buyStep_inv (hl x (List.mem_cons_self x xs)) h)

lemma scanBuys_inv (slots : Nat → Option Order) (count : Nat) :
    BuyInv slots count (scanBuys slots count) :=
  buy_fold_inv (List.range count) (none, -1)
    (fun x hx => List.mem_range.mp hx) ⟨fun _ => rfl, fun i o h => by simp at h⟩

lemma scanBuys_some {slots : Nat → Option Order} {count i : Nat} {o : Order}
    (h : (scanBuys slots count).1 = some (i, o)) :
    i < count ∧ slots i = some o ∧ 0 < o.quantity ∧ (scanBuys slots count).2 = o.price :=
  (scanBuys_inv slots count).2 i o h

lemma scanBuys_none {slots : Nat → Option Order} {count : Nat}
    (h : (scanBuys slots count).1 = none) : (scanBuys slots count).2 = -1 :=
  (scanBuys_inv slots count).1 h

lemma buyStep_snd_le (slots : Nat → Option Order) (acc : Option (Nat × Order) × ℚ)
    (i : Nat) : acc.2 ≤ (buyStep slots acc i).2 := by
  cases hso : slots i with
  | none => rw [buyStep_eq_none hso]
  | some o =>
    rw [buyStep_eq_some hso]
    by_cases hc : 0 < o.quantity ∧ acc.2 < o.price
    · rw [if_pos hc]
      exact hc.2.le
    · rw [if_neg hc]

lemma buy_fold_snd_le (slots : Nat → Option Order) :
    ∀ (l : List Nat) (acc : Option (Nat × Order) × ℚ),
      acc.2 ≤ (l.foldl (buyStep slots) acc).2
  | [], _ => le_refl _
  | x :: xs, acc => le_trans (buyStep_snd_le slots acc x) (buy_fold_snd_le slots xs _)

lemma buy_fold_max (slots : Nat → Option Order) :
    ∀ (l : List Nat) (acc : Option (Nat × Order) × ℚ) (i : Nat) (o : Order), i ∈ l →
      slots i = some o → 0 < o.quantity → o.price ≤ (l.foldl (buyStep slots) acc).2
  | [], _, _, _, h, _, _ => absurd h (List.not_mem_nil _)
  | x :: xs, acc, i, o, hmem, hso, hq => by
    simp only [List.foldl_cons]
    rcases List.mem_cons.mp hmem with h | h
    · subst h
      refine le_trans ?_ (buy_fold_snd_le slots xs _)
      rw [buyStep_eq_some hso]
      by_cases hc : 0 < o.quantity ∧ acc.2 < o.price
      · rw [if_pos hc]
      · rw [if_neg hc]
        push_neg at hc
        exact hc hq
    · exact buy_fold_max slots xs _ i o h hso hq

/-- Every eligible claimed buy slot has price at most the final highest
scanned price. -/
lemma scanBuys_max {slots : Nat → Option Order} {count i : Nat} {o : Order}
    (hi : i < count) (hso : slots i = some o) (hq : 0 < o.quantity) :
    o.price ≤ (scanBuys slots count).2 :=
  buy_fold_max slots (List.range count) (none, -1) i o (List.mem_range.mpr hi) hso hq

/-- Invariant of the best-sell scan accumulator. -/
def SellInv (slots : Nat → Option Order) (count : Nat) (acc : Option (Nat × Order) × ℚ) :
    Prop :=
  (acc.1 = none → acc.2 = 1000000000) ∧
  ∀ i o, acc.1 = some (i, o) →
    i < count ∧ slots i = some o ∧ 0 < o.quantity ∧ acc.2 = o.price

lemma sellStep_eq_some {slots : Nat → Option Order} {acc : Option (Nat × Order) × ℚ}
    {i : Nat} {o : Order} (hso : slots i = some o) :
    sellStep slots acc i =
      if 0 < o.quantity ∧ o.price < acc.2 then (some (i, o), o.price) else acc := by
  unfold sellStep
  rw [hso]

lemma sellStep_eq_none {slots : Nat → Option Order} {acc : Option (Nat × Order) × ℚ}
    {i : Nat} (hso : slots i = none) : sellStep slots acc i = acc := by
  unfold sellStep
  rw [hso]

lemma sellStep_inv {slots : Nat → Option Order} {count : Nat}
    {acc : Option (Nat × Order) × ℚ} {i : Nat} (hi : i < count)
    (h : SellInv slots count acc) : SellInv slots count (sellStep slots acc i) := by
  cases hso : slots i with
  | none => rw [sellStep_eq_none hso]; exact h
  | some o =>
    rw [sellStep_eq_some hso]
    by_cases hc : 0 < o.quantity ∧ o.price < acc.2
    · rw [if_pos hc]
      refine ⟨by simp, fun j o2 hj => ?_⟩
      have hj2 : some (i, o) = some (j, o2) := hj
      cases hj2
      exact ⟨hi, hso, hc.1, rfl⟩
    · rw [if_neg hc]
      exact h

lemma sell_fold_inv {slots : Nat → Option Order} {count : Nat} :
    ∀ (l : List Nat) (acc : Option (Nat × Order) × ℚ), (∀ x ∈ l, x < count) →
      SellInv slots count acc → SellInv slots count (l.foldl (sellStep slots) acc)
  | [], _, _, h => h
  | x :: xs, acc, hl, h => by
    simp only [List.foldl_cons]
    exact sell_fold_inv xs _ (fun y hy => hl y (List.mem_cons_of_mem x hy))
      (sellStep_inv (hl x (List.mem_cons_self x xs)) h)

lemma scanSells_inv (slots : Nat → Option Order) (count : Nat) :
    SellInv slots count (scanSells slots count) :=
  sell_fold_inv (List.range count) (none, 1000000000)
    (fun x hx => List.mem_range.mp hx) ⟨fun _ => rfl, fun i o h => by simp at h⟩

lemma scanSells_some {slots : Nat → Option Order} {count i : Nat} {o : Order}
    (h : (scanSells slots count).1 = some (i, o)) :
    i < count ∧ slots i = some o ∧ 0 < o.quantity ∧ (scanSells slots count).2 = o.price :=
  (scanSells_inv slots count).2 i o h

lemma scanSells_none {slots : Nat → Option Order} {count : Nat}
    (h : (scanSells slots count).1 = none) : (scanSells slots count).2 = 1000000000 :=
  (scanSells_inv slots count).1 h

lemma sellStep_snd_ge (slots : Nat → Option Order) (acc : Option (Nat × Order) × ℚ)
    (i : Nat) : (sellStep slots acc i).2 ≤ acc.2 := by
  cases hso : slots i with
  | none => rw [sellStep_eq_none hso]
  | some o =>
    rw [sellStep_eq_some hso]
    by_cases hc : 0 < o.quantity ∧ o.price < acc.2
    · rw [if_pos hc]
      exact hc.2.le
    · rw [if_neg hc]

lemma sell_fold_snd_ge (slots : Nat → Option Order) :
    ∀ (l : List Nat) (acc : Option (Nat × Order) × ℚ),
      (l.foldl (sellStep slots) acc).2 ≤ acc.2
  | [], _ => le_refl _
  | x :: xs, acc => le_trans (sell_fold_snd_ge slots xs _) (sellStep_snd_ge slots acc x)

lemma sell_fold_min (slots : Nat → Option Order) :
    ∀ (l : List Nat) (acc : Option (Nat × Order) × ℚ) (i : Nat) (o : Order), i ∈ l →
      slots i = some o → 0 < o.quantity → (l.foldl (sellStep slots) acc).2 ≤ o.price
  | [], _, _, _, h, _, _ => absurd h (List.not_mem_nil _)
  | x :: xs, acc, i, o, hmem, hso, hq => by
    simp only [List.foldl_cons]
    rcases List.mem_cons.mp hmem with h | h
    · subst h
      refine le_trans (sell_fold_snd_ge slots xs _) ?_
      rw [sellStep_eq_some hso]
      by_cases hc : 0 < o.quantity ∧ o.price < acc.2
      · rw [if_pos hc]
      · rw [if_neg hc]
        push_neg at hc
        exact hc hq
    · exact sell_fold_min slots xs _ i o h hso hq

/-- Every eligible claimed sell slot has price at least the final lowest
scanned price. -/
lemma scanSells_min {slots : Nat → Option Order} {count i : Nat} {o : Order}
    (hi : i < count) (hso : slots i = some o) (hq : 0 < o.quantity) :
    (scanSells slots count).2 ≤ o.price :=
  sell_fold_min slots (List.range count) (none, 1000000000) i o
    (List.mem_range.mpr hi) hso hq

/-! ### Structure of one matching iteration -/

lemma matchStep_eq_none_buy {b : Book}
    (h : (scanBuys b.buyOrders b.buyCount).1 = none) : matchStep b = none := by
  unfold matchStep
  rw [h]

lemma matchStep_eq_none_sell {b : Book}
    (h : (scanSells b.sellOrders b.sellCount).1 = none) : matchStep b = none := by
  unfold matchStep
  rw [h]
  cases hb : (scanBuys b.buyOrders b.buyCount).1 with
  | none => rfl
  | some p =>
    obtain ⟨i, bb⟩ := p
    rfl

lemma matchStep_eq_of_some {b : Book} {i j : Nat} {bb bs : Order}
    (hb : (scanBuys b.buyOrders b.buyCount).1 = some (i, bb))
    (hs : (scanSells b.sellOrders b.sellCount).1 = some (j, bs)) :
    matchStep b =
      if bb.price < bs.price then none
      else
        some
          ({ b with
              buyOrders := decSlot b.buyOrders i (min bb.quantity bs.quantity),
              sellOrders := decSlot b.sellOrders j (min bb.quantity bs.quantity) },
            ⟨min bb.quantity bs.quantity, bs.price⟩) := by
  unfold matchStep
  rw [hb, hs]

/-- Inverting a successful iteration: the two scans selected eligible
orders, the prices crossed, and the result is both decrements plus the
trade at the sell price. -/
lemma matchStep_some_inv {b b1 : Book} {tr : Trade} (h : matchStep b = some (b1, tr)) :
    ∃ i bb j bs,
      (scanBuys b.buyOrders b.buyCount).1 = some (i, bb) ∧
      (scanSells b.sellOrders b.sellCount).1 = some (j, bs) ∧
      bs.price ≤ bb.price ∧
      tr = ⟨min bb.quantity bs.quantity, bs.price⟩ ∧
      b1 = { b with
              buyOrders := decSlot b.buyOrders i (min bb.quantity bs.quantity),
              sellOrders := decSlot b.sellOrders j (min bb.quantity bs.quantity) } := by
  cases hb : (scanBuys b.buyOrders b.buyCount).1 with
  | none =>
    rw [matchStep_eq_none_buy hb] at h
    exact absurd h (by simp)
  | some p =>
    obtain ⟨i, bb⟩ := p
    cases hs : (scanSells b.sellOrders b.sellCount).1 with
    | none =>
      rw [matchStep_eq_none_sell hs] at h
      exact absurd h (by simp)
    | some q =>
      obtain ⟨j, bs⟩ := q
      rw [matchStep_eq_of_some hb hs] at h
      by_cases hp : bb.price < bs.price
      · rw [if_pos hp] at h
        exact absurd h (by simp)
      · rw [if_neg hp] at h
        simp only [Option.some.injEq, Prod.mk.injEq] at h
        exact ⟨i, bb, j, bs, rfl, rfl, not_lt.mp hp, h.2.symm, h.1.symm⟩

/-! ### Slot decrement lemmas -/

lemma decSlot_ne {slots : Nat → Option Order} {i q n : Nat} (h : n ≠ i) :
    decSlot slots i q n = slots n := by
  unfold decSlot
  rw [if_neg h]

lemma decSlot_self (slots : Nat → Option Order) (i q : Nat) :
    decSlot slots i q i = (slots i).map (fun o => { o with quantity := o.quantity - q }) := by
  unfold decSlot
  rw [if_pos rfl]

lemma qtyAt_eq_of_some {slots : Nat → Option Order} {n : Nat} {o : Order}
    (h : slots n = some o) : qtyAt slots n = o.quantity := by
  unfold qtyAt
  rw [h]
  rfl

lemma qtyAt_eq_zero_of_none {slots : Nat → Option Order} {n : Nat}
    (h : slots n = none) : qtyAt slots n = 0 := by
  unfold qtyAt
  rw [h]
  rfl

lemma qtyAt_decSlot_le (slots : Nat → Option Order) (i q n : Nat) :
    qtyAt (decSlot slots i q) n ≤ qtyAt slots n := by
  by_cases hn : n = i
  · subst hn
    cases hso : slots n with
    | none =>
      rw [qtyAt_eq_zero_of_none (by rw [decSlot_self, hso]; rfl)]
      exact Nat.zero_le _
    | some o =>
      have h1 : decSlot slots n q n = some { o with quantity := o.quantity - q } := by
        rw [decSlot_self, hso]
        rfl
      rw [qtyAt_eq_of_some h1, qtyAt_eq_of_some hso]
      exact Nat.sub_le _ _
  · unfold qtyAt
    rw [decSlot_ne hn]

lemma decSlot_isSome {slots : Nat → Option Order} {i q n : Nat}
    (h : slots n ≠ none) : decSlot slots i q n ≠ none := by
  by_cases hn : n = i
  · subst hn
    cases hso : slots n with
    | none => exact absurd hso h
    | some o =>
      rw [decSlot_self, hso]
      exact fun hcontra => Option.noConfusion hcontra
  · rw [decSlot_ne hn]
    exact h

/-- A slot whose order is already fully filled is left untouched by a
decrement, wherever the decrement lands. -/
lemma decSlot_zero_stable {slots : Nat → Option Order} {i q n : Nat}
    (h : qtyAt slots n = 0) : decSlot slots i q n = slots n := by
  by_cases hn : n = i
  · subst hn
    cases hso : slots n with
    | none => rw [decSlot_self, hso]; rfl
    | some o =>
      have hq : o.quantity = 0 := by rwa [qtyAt_eq_of_some hso] at h
      have h2 : o.quantity - q = o.quantity := by omega
      rw [decSlot_self, hso]
      show some { o with quantity := o.quantity - q } = some o
      rw [h2]
  · exact decSlot_ne hn

/-- Decrementing by at least the held quantity empties the slot. -/
lemma qtyAt_decSlot_self_zero {slots : Nat → Option Order} {i q : Nat} {o : Order}
    (hso : slots i = some o) (hq : o.quantity ≤ q) :
    qtyAt (decSlot slots i q) i = 0 := by
  have h1 : decSlot slots i q i = some { o with quantity := o.quantity - q } := by
    rw [decSlot_self, hso]
    rfl
  rw [qtyAt_eq_of_some h1]
  exact Nat.sub_eq_zero_of_le hq

/-! ### The eligible-order measure and loop termination -/

lemma eligSet_mem {slots : Nat → Option Order} {count n : Nat} :
    n ∈ eligSet slots count ↔ n < count ∧ 0 < qtyAt slots n := by
  unfold eligSet
  simp [Finset.mem_filter, Finset.mem_range]

lemma eligSet_decSlot_subset (slots : Nat → Option Order) (count i q : Nat) :
    eligSet (decSlot slots i q) count ⊆ eligSet slots count := by
  intro k hk
  rw [eligSet_mem] at hk ⊢
  exact ⟨hk.1, lt_of_lt_of_le hk.2 (qtyAt_decSlot_le slots i q k)⟩

/-- Each executed cross strictly decreases the number of eligible resting
orders: the smaller-quantity side of the match becomes fully filled. -/
lemma matchStep_elig_lt {b b1 : Book} {tr : Trade} (h : matchStep b = some (b1, tr)) :
    eligibleCount b1 < eligibleCount b := by
  obtain ⟨i, bb, j, bs, hb, hs, hp, htr, hb1⟩ := matchStep_some_inv h
  obtain ⟨hbi, hbso, hbq, hbp⟩ := scanBuys_some hb
  obtain ⟨hsj, hsso, hsq, hsp⟩ := scanSells_some hs
  subst hb1
  rcases Nat.le_total bb.quantity bs.quantity with hmin | hmin
  · have hzero : qtyAt (decSlot b.buyOrders i (min bb.quantity bs.quantity)) i = 0 :=
      qtyAt_decSlot_self_zero hbso (by omega)
    have hmem : i ∈ eligSet b.buyOrders b.buyCount :=
      eligSet_mem.mpr ⟨hbi, by rw [qtyAt_eq_of_some hbso]; exact hbq⟩
    have hnot : i ∉ eligSet (decSlot b.buyOrders i (min bb.quantity bs.quantity)) b.buyCount := by
      intro hk
      rw [eligSet_mem] at hk
      omega
    have hcard1 :
        (eligSet (decSlot b.buyOrders i (min bb.quantity bs.quantity)) b.buyCount).card <
          (eligSet b.buyOrders b.buyCount).card :=
      Finset.card_lt_card
        ((Finset.ssubset_iff_of_subset (eligSet_decSlot_subset _ _ _ _)).mpr
          ⟨i, hmem, hnot⟩)
    have hcard2 :
        (eligSet (decSlot b.sellOrders j (min bb.quantity bs.quantity)) b.sellCount).card ≤
          (eligSet b.sellOrders b.sellCount).card :=
      Finset.card_le_card (eligSet_decSlot_subset _ _ _ _)
    unfold eligibleCount
    dsimp only
    omega
  · have hzero : qtyAt (decSlot b.sellOrders j (min bb.quantity bs.quantity)) j = 0 :=
      qtyAt_decSlot_self_zero hsso (by omega)
    have hmem : j ∈ eligSet b.sellOrders b.sellCount :=
      eligSet_mem.mpr ⟨hsj, by rw [qtyAt_eq_of_some hsso]; exact hsq⟩
    have hnot : j ∉ eligSet (decSlot b.sellOrders j (min bb.quantity bs.quantity)) b.sellCount := by
      intro hk
      rw [eligSet_mem] at hk
      omega
    have hcard1 :
        (eligSet (decSlot b.sellOrders j (min bb.quantity bs.quantity)) b.sellCount).card <
          (eligSet b.sellOrders b.sellCount).card :=
      Finset.card_lt_card
        ((Finset.ssubset_iff_of_subset (eligSet_decSlot_subset _ _ _ _)).mpr
          ⟨j, hmem, hnot⟩)
    have hcard2 :
        (eligSet (decSlot b.buyOrders i (min bb.quantity bs.quantity)) b.buyCount).card ≤
          (eligSet b.buyOrders b.buyCount).card :=
      Finset.card_le_card (eligSet_decSlot_subset _ _ _ _)
    unfold eligibleCount
    dsimp only
    omega

lemma matchLoop_none {fuel : Nat} {b : Book} (hs : matchStep b = none) :
    matchLoop (fuel + 1) b = (b, []) := by
  unfold matchLoop
  rw [hs]

lemma matchLoop_some {fuel : Nat} {b b1 : Book} {tr : Trade}
    (hs : matchStep b = some (b1, tr)) :
    matchLoop (fuel + 1) b = ((matchLoop fuel b1).1, tr :: (matchLoop fuel b1).2) := by
  conv_lhs => rw [matchLoop]
  rw [hs]

/-- With fuel exceeding the eligible-order measure, the loop reaches a
state where no further cross exists. -/
lemma matchLoop_fix : ∀ (fuel : Nat) (b : Book), eligibleCount b < fuel →
    matchStep (matchLoop fuel b).1 = none
  | 0, _, h => absurd h (Nat.not_lt_zero _)
  | Nat.succ fuel, b, h => by
    cases hs : matchStep b with
    | none =>
      rw [matchLoop_none hs]
      exact hs
    | some p =>
      obtain ⟨b1, tr⟩ := p
      rw [matchLoop_some hs]
      exact matchLoop_fix fuel b1
        (lt_of_lt_of_le (matchStep_elig_lt hs) (Nat.lt_succ_iff.mp h))

lemma eligibleCount_le (b : Book) : eligibleCount b ≤ b.buyCount + b.sellCount := by
  unfold eligibleCount eligSet
  have h1 := Finset.card_filter_le (Finset.range b.buyCount)
    (fun i => 0 < qtyAt b.buyOrders i)
  have h2 := Finset.card_filter_le (Finset.range b.sellCount)
    (fun i => 0 < qtyAt b.sellOrders i)
  simp only [Finset.card_range] at h1 h2
  omega

/-- A full matching pass runs to completion: afterwards no iteration can
find a cross. -/
lemma pass_fix (b : Book) : matchStep (matchOrdersForTicker b).1 = none :=
  matchLoop_fix _ b (Nat.lt_succ_of_le (eligibleCount_le b))

lemma matchStep_counts {b b1 : Book} {tr : Trade} (h : matchStep b = some (b1, tr)) :
    b1.buyCount = b.buyCount ∧ b1.sellCount = b.sellCount := by
  obtain ⟨i, bb, j, bs, _, _, _, _, hb1⟩ := matchStep_some_inv h
  subst hb1
  exact ⟨rfl, rfl⟩

lemma matchLoop_counts : ∀ (fuel : Nat) (b : Book),
    (matchLoop fuel b).1.buyCount = b.buyCount ∧
    (matchLoop fuel b).1.sellCount = b.sellCount
  | 0, b => ⟨rfl, rfl⟩
  | Nat.succ fuel, b => by
    cases hs : matchStep b with
    | none =>
      rw [matchLoop_none hs]
      exact ⟨rfl, rfl⟩
    | some p =>
      obtain ⟨b1, tr⟩ := p
      rw [matchLoop_some hs]
      have h1 := matchLoop_counts fuel b1
      have h2 := matchStep_counts hs
      exact ⟨h1.1.trans h2.1, h1.2.trans h2.2⟩

lemma pass_counts (b : Book) :
    (matchOrdersForTicker b).1.buyCount = b.buyCount ∧
    (matchOrdersForTicker b).1.sellCount = b.sellCount :=
  matchLoop_counts _ b

/-! ### Claim C1: the no-cross invariant after a pass -/

/-- Claim C1 (amended): after a matching pass terminates, no eligible
resting buy/sell pair visible to the scans crosses.  The scan sentinels
hide buys priced at or below -1.0 and sells priced at or above 1e9, so the
invariant holds for every eligible pair whose buy price is above -1 and
whose sell price is below 1000000000: such a buy is strictly cheaper than
such a sell. -/
theorem c1_amended (b : Book) (i j : Nat) (buy sell : Order)
    (hi : i < (matchOrdersForTicker b).1.buyCount)
    (hj : j < (matchOrdersForTicker b).1.sellCount)
    (hbo : (matchOrdersForTicker b).1.buyOrders i = some buy)
    (hso : (matchOrdersForTicker b).1.sellOrders j = some sell)
    (hbq : 0 < buy.quantity) (hsq : 0 < sell.quantity)
    (hbp : (-1 : ℚ) < buy.price) (hsp : sell.price < 1000000000) :
    buy.price < sell.price := by
  have hfix : matchStep (matchOrdersForTicker b).1 = none := pass_fix b
  have hmaxb : buy.price ≤
      (scanBuys (matchOrdersForTicker b).1.buyOrders (matchOrdersForTicker b).1.buyCount).2 :=
    scanBuys_max hi hbo hbq
  have hmins :
      (scanSells (matchOrdersForTicker b).1.sellOrders (matchOrdersForTicker b).1.sellCount).2 ≤
        sell.price :=
    scanSells_min hj hso hsq
  cases hbscan :
      (scanBuys (matchOrdersForTicker b).1.buyOrders (matchOrdersForTicker b).1.buyCount).1 with
  | none =>
    exfalso
    rw [scanBuys_none hbscan] at hmaxb
    exact absurd (lt_of_lt_of_le hbp hmaxb) (lt_irrefl _)
  | some p =>
    obtain ⟨ib, bb⟩ := p
    cases hsscan :
        (scanSells (matchOrdersForTicker b).1.sellOrders
          (matchOrdersForTicker b).1.sellCount).1 with
    | none =>
      exfalso
      rw [scanSells_none hsscan] at hmins
      exact absurd (lt_of_le_of_lt hmins hsp) (lt_irrefl _)
    | some q2 =>
      obtain ⟨js, bs⟩ := q2
      rw [matchStep_eq_of_some hbscan hsscan] at hfix
      by_cases hp : bb.price < bs.price
      · rw [(scanBuys_some hbscan).2.2.2] at hmaxb
        rw [(scanSells_some hsscan).2.2.2] at hmins
        calc buy.price ≤ bb.price := hmaxb
          _ < bs.price := hp
          _ ≤ sell.price := hmins
      · rw [if_neg hp] at hfix
        exact absurd hfix (by simp)

/-- An eligible buy at 2e9 and an eligible sell at 1.5e9: both are beyond
the scan sentinels on their sides only for the sell (1.5e9 is above 1e9),
so a pass finds no cross and leaves a crossed pair resting. -/
def cex1Buy : Order := ⟨true, 0, 1, 2000000000, 0⟩

/-- The sell of the C1 counterexample, priced at 1.5e9. -/
def cex1Sell : Order := ⟨false, 0, 1, 1500000000, 0⟩

/-- The one-buy one-sell book of the C1 counterexample. -/
def cex1Book : Book :=
  ⟨setSlot (fun _ => none) 0 cex1Buy, setSlot (fun _ => none) 0 cex1Sell, 1, 1⟩

/-- Claim C1 as stated is false on the code: on cex1Book a matching pass
terminates immediately (the sell at 1.5e9 is invisible to the sell scan,
whose sentinel is 1e9), yet an eligible buy/sell pair with
buy price at least sell price is still resting afterwards. -/
theorem c1_counterexample :
    0 < (matchOrdersForTicker cex1Book).1.buyCount ∧
    0 < (matchOrdersForTicker cex1Book).1.sellCount ∧
    (matchOrdersForTicker cex1Book).1.buyOrders 0 = some cex1Buy ∧
    (matchOrdersForTicker cex1Book).1.sellOrders 0 = some cex1Sell ∧
    0 < cex1Buy.quantity ∧ 0 < cex1Sell.quantity ∧
    cex1Sell.price ≤ cex1Buy.price := by
  decide

/-- Scenario B book: one buy at 10 and one sell at 20, no cross. -/
def scenBBook : Book :=
  ⟨setSlot (fun _ => none) 0 ⟨true, 2, 50, 10, 0⟩,
    setSlot (fun _ => none) 0 ⟨false, 2, 80, 20, 1⟩, 1, 1⟩

/-- Witness for the amended C1, on the scenario B book. -/
theorem c1_witness : (Order.mk true 2 50 10 0).price < (Order.mk false 2 80 20 1).price :=
  c1_amended scenBBook 0 0 (Order.mk true 2 50 10 0) (Order.mk false 2 80 20 1)
    (by decide) (by decide) (by decide) (by decide) (by decide) (by decide)
    (by decide) (by decide)

/-! ### Claim C4: content of one executed cross -/

/-- Claim C4: every executed cross matches the minimum of the two selected
remaining quantities, decrements both selected orders by exactly that
amount, and reports the resting sell price as the execution price,
independent of the buy price. -/
theorem c4_cross (b b1 : Book) (tr : Trade) (i j : Nat) (bb bs : Order)
    (hstep : matchStep b = some (b1, tr))
    (hb : (scanBuys b.buyOrders b.buyCount).1 = some (i, bb))
    (hs : (scanSells b.sellOrders b.sellCount).1 = some (j, bs)) :
    tr.qty = min bb.quantity bs.quantity ∧
    tr.qty ≤ bb.quantity ∧ tr.qty ≤ bs.quantity ∧
    tr.price = bs.price ∧
    b.buyOrders i = some bb ∧ b.sellOrders j = some bs ∧
    b1.buyOrders i = some { bb with quantity := bb.quantity - tr.qty } ∧
    b1.sellOrders j = some { bs with quantity := bs.quantity - tr.qty } := by
  obtain ⟨i2, bb2, j2, bs2, hb2, hs2, hp2, htr2, hb12⟩ := matchStep_some_inv hstep
  rw [hb] at hb2
  rw [hs] at hs2
  simp only [Option.some.injEq, Prod.mk.injEq] at hb2 hs2
  obtain ⟨rfl, rfl⟩ := hb2
  obtain ⟨rfl, rfl⟩ := hs2
  subst hb12
  subst htr2
  obtain ⟨hbi, hbso, hbq, _⟩ := scanBuys_some hb
  obtain ⟨hsj, hsso, hsq, _⟩ := scanSells_some hs
  refine ⟨rfl, Nat.min_le_left _ _, Nat.min_le_right _ _, rfl, hbso, hsso, ?_, ?_⟩
  · show decSlot b.buyOrders i (min bb.quantity bs.quantity) i = _
    rw [decSlot_self, hbso]
    rfl
  · show decSlot b.sellOrders j (min bb.quantity bs.quantity) j = _
    rw [decSlot_self, hsso]
    rfl

/-- Scenario A book: a buy of 100 at 50 against a sell of 100 at 40. -/
def scA : Book :=
  ⟨setSlot (fun _ => none) 0 ⟨true, 1, 100, 50, 0⟩,
    setSlot (fun _ => none) 0 ⟨false, 1, 100, 40, 1⟩, 1, 1⟩

/-- The book after the single cross of scenario A. -/
def scA1 : Book := ⟨decSlot scA.buyOrders 0 100, decSlot scA.sellOrders 0 100, 1, 1⟩

/-- Witness for C4 on scenario A: quantity 100 matched at the sell price
40 although the buy was priced 50. -/
theorem c4_witness :
    (Trade.mk 100 40).qty =
      min (Order.mk true 1 100 50 0).quantity (Order.mk false 1 100 40 1).quantity ∧
    (Trade.mk 100 40).qty ≤ (Order.mk true 1 100 50 0).quantity ∧
    (Trade.mk 100 40).qty ≤ (Order.mk false 1 100 40 1).quantity ∧
    (Trade.mk 100 40).price = (Order.mk false 1 100 40 1).price ∧
    scA.buyOrders 0 = some (Order.mk true 1 100 50 0) ∧
    scA.sellOrders 0 = some (Order.mk false 1 100 40 1) ∧
    scA1.buyOrders 0 =
      some { Order.mk true 1 100 50 0 with
              quantity := (Order.mk true 1 100 50 0).quantity - (Trade.mk 100 40).qty } ∧
    scA1.sellOrders 0 =
      some { Order.mk false 1 100 40 1 with
              quantity := (Order.mk false 1 100 40 1).quantity - (Trade.mk 100 40).qty } :=
  c4_cross scA scA1 (Trade.mk 100 40) 0 0 (Order.mk true 1 100 50 0)
    (Order.mk false 1 100 40 1) rfl (by decide) (by decide)

/-! ### Claim C9: termination of a matching pass -/

/-- Claim C9: each executed cross fully fills the smaller-quantity side of
the match, so the number of eligible orders strictly decreases; with the
chosen fuel every pass reaches a state where the loop exit condition
holds. -/
theorem c9_termination (b b1 : Book) (tr : Trade) (i j : Nat) (bb bs : Order)
    (hstep : matchStep b = some (b1, tr))
    (hb : (scanBuys b.buyOrders b.buyCount).1 = some (i, bb))
    (hs : (scanSells b.sellOrders b.sellCount).1 = some (j, bs)) :
    (bb.quantity ≤ bs.quantity → qtyAt b1.buyOrders i = 0) ∧
    (bs.quantity ≤ bb.quantity → qtyAt b1.sellOrders j = 0) ∧
    eligibleCount b1 < eligibleCount b ∧
    ∀ c : Book, matchStep (matchOrdersForTicker c).1 = none := by
  obtain ⟨i2, bb2, j2, bs2, hb2, hs2, hp2, htr2, hb12⟩ := matchStep_some_inv hstep
  rw [hb] at hb2
  rw [hs] at hs2
  simp only [Option.some.injEq, Prod.mk.injEq] at hb2 hs2
  obtain ⟨rfl, rfl⟩ := hb2
  obtain ⟨rfl, rfl⟩ := hs2
  subst hb12
  obtain ⟨hbi, hbso, hbq, _⟩ := scanBuys_some hb
  obtain ⟨hsj, hsso, hsq, _⟩ := scanSells_some hs
  refine ⟨?_, ?_, matchStep_elig_lt hstep, fun c => pass_fix c⟩
  · intro hle
    show qtyAt (decSlot b.buyOrders i (min bb.quantity bs.quantity)) i = 0
    exact qtyAt_decSlot_self_zero hbso (Nat.le_min.mpr ⟨le_rfl, hle⟩)
  · intro hle
    show qtyAt (decSlot b.sellOrders j (min bb.quantity bs.quantity)) j = 0
    exact qtyAt_decSlot_self_zero hsso (Nat.le_min.mpr ⟨hle, le_rfl⟩)

/-- Witness for C9 on scenario A: both matched orders reach quantity zero,
the eligible count drops, and the pass reaches the exit condition. -/
theorem c9_witness :
    qtyAt scA1.buyOrders 0 = 0 ∧ qtyAt scA1.sellOrders 0 = 0 ∧
    eligibleCount scA1 < eligibleCount scA ∧
    matchStep (matchOrdersForTicker scA).1 = none := by
  have h := c9_termination scA scA1 (Trade.mk 100 40) 0 0 (Order.mk true 1 100 50 0)
    (Order.mk false 1 100 40 1) rfl (by decide) (by decide)
  exact ⟨h.1 (by decide), h.2.1 (by decide), h.2.2.1, h.2.2.2 scA⟩

/-! ### Claims C2 and C3: the best-order selection rule -/

/-- Relation between the sell-scan accumulator and the spec selection
accumulator for a given price bound. -/
def SellRel (bound : ℚ) (acc : Option (Nat × Order) × ℚ) : Prop :=
  (acc.1 = none → acc.2 = bound) ∧
  ∀ i o, acc.1 = some (i, o) → acc.2 = o.price ∧ o.price < bound

lemma specSellChooseBelow_eq_some {slots : Nat → Option Order} {bound : ℚ}
    {best : Option (Nat × Order)} {i : Nat} {o : Order} (hso : slots i = some o) :
    specSellChooseBelow slots bound best i =
      if 0 < o.quantity ∧ o.price < bound then
        match best with
        | none => some (i, o)
        | some p => if o.price < p.2.price then some (i, o) else some p
      else best := by
  unfold specSellChooseBelow
  rw [hso]

lemma specSellChooseBelow_eq_none {slots : Nat → Option Order} {bound : ℚ}
    {best : Option (Nat × Order)} {i : Nat} (hso : slots i = none) :
    specSellChooseBelow slots bound best i = best := by
  unfold specSellChooseBelow
  rw [hso]

lemma sellStep_fst_spec {slots : Nat → Option Order} {bound : ℚ}
    {acc : Option (Nat × Order) × ℚ} {i : Nat} (h : SellRel bound acc) :
    (sellStep slots acc i).1 = specSellChooseBelow slots bound acc.1 i := by
  cases hso : slots i with
  | none => rw [sellStep_eq_none hso, specSellChooseBelow_eq_none hso]
  | some o =>
    rw [sellStep_eq_some hso, specSellChooseBelow_eq_some hso]
    cases hacc : acc.1 with
    | none =>
      rw [h.1 hacc]
      by_cases hc : 0 < o.quantity ∧ o.price < bound
      · rw [if_pos hc, if_pos hc]
      · rw [if_neg hc, if_neg hc, hacc]
    | some p =>
      obtain ⟨j, b2⟩ := p
      obtain ⟨hb2, hblt⟩ := h.2 j b2 hacc
      rw [hb2]
      by_cases hq : 0 < o.quantity
      · by_cases hlt : o.price < b2.price
        · rw [if_pos ⟨hq, hlt⟩, if_pos ⟨hq, lt_trans hlt hblt⟩]
          show some (i, o) = if o.price < b2.price then some (i, o) else some (j, b2)
          rw [if_pos hlt]
        · rw [if_neg (fun hcon => hlt hcon.2), hacc]
          by_cases hpb : o.price < bound
          · rw [if_pos ⟨hq, hpb⟩]
            show some (j, b2) = if o.price < b2.price then some (i, o) else some (j, b2)
            rw [if_neg hlt]
          · rw [if_neg (fun hcon => hpb hcon.2)]
      · rw [if_neg (fun hcon => hq hcon.1), if_neg (fun hcon => hq hcon.1), hacc]

lemma sellStep_rel {slots : Nat → Option Order} {bound : ℚ}
    {acc : Option (Nat × Order) × ℚ} {i : Nat} (h : SellRel bound acc) :
    SellRel bound (sellStep slots acc i) := by
  cases hso : slots i with
  | none => rw [sellStep_eq_none hso]; exact h
  | some o =>
    rw [sellStep_eq_some hso]
    by_cases hc : 0 < o.quantity ∧ o.price < acc.2
    · rw [if_pos hc]
      refine ⟨fun hx => absurd hx (by simp), fun j o2 hx => ?_⟩
      have hx2 : some (i, o) = some (j, o2) := hx
      cases hx2
      refine ⟨rfl, ?_⟩
      cases hacc : acc.1 with
      | none =>
        rw [h.1 hacc] at hc
        exact hc.2
      | some p =>
        obtain ⟨j2, b2⟩ := p
        obtain ⟨hb2, hblt⟩ := h.2 j2 b2 hacc
        rw [hb2] at hc
        exact lt_trans hc.2 hblt
    · rw [if_neg hc]
      exact h

lemma sell_fold_spec {slots : Nat → Option Order} {bound : ℚ} :
    ∀ (l : List Nat) (acc : Option (Nat × Order) × ℚ), SellRel bound acc →
      (l.foldl (sellStep slots) acc).1 = l.foldl (specSellChooseBelow slots bound) acc.1
  | [], _, _ => rfl
  | x :: xs, acc, h => by
    simp only [List.foldl_cons]
    rw [← sellStep_fst_spec h]
    exact sell_fold_spec xs _ (sellStep_rel h)

/-- Claim C2 (amended): the sell scan selects exactly the strictly lowest
priced eligible sell, first slot index winning ties, among sells priced
strictly below the 1e9 sentinel; eligible sells priced 1e9 or above are
never selected. -/
theorem c2_amended (slots : Nat → Option Order) (count : Nat) :
    (scanSells slots count).1 = specBestSellBelow slots count 1000000000 := by
  unfold scanSells specBestSellBelow
  exact sell_fold_spec (List.range count) (none, 1000000000)
    ⟨fun _ => rfl, fun i o hx => Option.noConfusion hx⟩

/-- One eligible sell priced at 2e9, above the scan sentinel. -/
def cex2Slots : Nat → Option Order := setSlot (fun _ => none) 0 ⟨false, 0, 1, 2000000000, 0⟩

/-- Claim C2 as stated is false on the code: with a single eligible sell
priced 2e9 the spec selection rule picks it, but the scan, whose lowest
price starts at the sentinel 1e9, selects nothing. -/
theorem c2_counterexample :
    (scanSells cex2Slots 1).1 = none ∧
    specBestSell cex2Slots 1 = some (0, ⟨false, 0, 1, 2000000000, 0⟩) ∧
    (scanSells cex2Slots 1).1 ≠ specBestSell cex2Slots 1 := by
  decide

/-- Relation between the buy-scan accumulator and the spec selection
accumulator for a given price bound. -/
def BuyRel (bound : ℚ) (acc : Option (Nat × Order) × ℚ) : Prop :=
  (acc.1 = none → acc.2 = bound) ∧
  ∀ i o, acc.1 = some (i, o) → acc.2 = o.price ∧ bound < o.price

lemma specBuyChooseAbove_eq_some {slots : Nat → Option Order} {bound : ℚ}
    {best : Option (Nat × Order)} {i : Nat} {o : Order} (hso : slots i = some o) :
    specBuyChooseAbove slots bound best i =
      if 0 < o.quantity ∧ bound < o.price then
        match best with
        | none => some (i, o)
        | some p => if p.2.price < o.price then some (i, o) else some p
      else best := by
  unfold specBuyChooseAbove
  rw [hso]

lemma specBuyChooseAbove_eq_none {slots : Nat → Option Order} {bound : ℚ}
    {best : Option (Nat × Order)} {i : Nat} (hso : slots i = none) :
    specBuyChooseAbove slots bound best i = best := by
  unfold specBuyChooseAbove
  rw [hso]

lemma buyStep_fst_spec {slots : Nat → Option Order} {bound : ℚ}
    {acc : Option (Nat × Order) × ℚ} {i : Nat} (h : BuyRel bound acc) :
    (buyStep slots acc i).1 = specBuyChooseAbove slots bound acc.1 i := by
  cases hso : slots i with
  | none => rw [buyStep_eq_none hso, specBuyChooseAbove_eq_none hso]
  | some o =>
    rw [buyStep_eq_some hso, specBuyChooseAbove_eq_some hso]
    cases hacc : acc.1 with
    | none =>
      rw [h.1 hacc]
      by_cases hc : 0 < o.quantity ∧ bound < o.price
      · rw [if_pos hc, if_pos hc]
      · rw [if_neg hc, if_neg hc, hacc]
    | some p =>
      obtain ⟨j, b2⟩ := p
      obtain ⟨hb2, hblt⟩ := h.2 j b2 hacc
      rw [hb2]
      by_cases hq : 0 < o.quantity
      · by_cases hlt : b2.price < o.price
        · rw [if_pos ⟨hq, hlt⟩, if_pos ⟨hq, lt_trans hblt hlt⟩]
          show some (i, o) = if b2.price < o.price then some (i, o) else some (j, b2)
          rw [if_pos hlt]
        · rw [if_neg (fun hcon => hlt hcon.2), hacc]
          by_cases hpb : bound < o.price
          · rw [if_pos ⟨hq, hpb⟩]
            show some (j, b2) = if b2.price < o.price then some (i, o) else some (j, b2)
            rw [if_neg hlt]
          · rw [if_neg (fun hcon => hpb hcon.2)]
      · rw [if_neg (fun hcon => hq hcon.1), if_neg (fun hcon => hq hcon.1), hacc]

lemma buyStep_rel {slots : Nat → Option Order} {bound : ℚ}
    {acc : Option (Nat × Order) × ℚ} {i : Nat} (h : BuyRel bound acc) :
    BuyRel bound (buyStep slots acc i) := by
  cases hso : slots i with
  | none => rw [buyStep_eq_none hso]; exact h
  | some o =>
    rw [buyStep_eq_some hso]
    by_cases hc : 0 < o.quantity ∧ acc.2 < o.price
    · rw [if_pos hc]
      refine ⟨fun hx => absurd hx (by simp), fun j o2 hx => ?_⟩
      have hx2 : some (i, o) = some (j, o2) := hx
      cases hx2
      refine ⟨rfl, ?_⟩
      cases hacc : acc.1 with
      | none =>
        rw [h.1 hacc] at hc
        exact hc.2
      | some p =>
        obtain ⟨j2, b2⟩ := p
        obtain ⟨hb2, hblt⟩ := h.2 j2 b2 hacc
        rw [hb2] at hc
        exact lt_trans hblt hc.2
    · rw [if_neg hc]
      exact h

lemma buy_fold_spec {slots : Nat → Option Order} {bound : ℚ} :
    ∀ (l : List Nat) (acc : Option (Nat × Order) × ℚ), BuyRel bound acc →
      (l.foldl (buyStep slots) acc).1 = l.foldl (specBuyChooseAbove slots bound) acc.1
  | [], _, _ => rfl
  | x :: xs, acc, h => by
    simp only [List.foldl_cons]
    rw [← buyStep_fst_spec h]
    exact buy_fold_spec xs _ (buyStep_rel h)

/-- Claim C3 (amended): the buy scan selects exactly the strictly highest
priced eligible buy, first slot index winning ties, among buys priced
strictly above the -1.0 sentinel; eligible buys priced -1.0 or below are
never selected. -/
theorem c3_amended (slots : Nat → Option Order) (count : Nat) :
    (scanBuys slots count).1 = specBestBuyAbove slots count (-1) := by
  unfold scanBuys specBestBuyAbove
  exact buy_fold_spec (List.range count) (none, -1)
    ⟨fun _ => rfl, fun i o hx => Option.noConfusion hx⟩

/-- One eligible buy priced at -1, at the scan sentinel. -/
def cex3Slots : Nat → Option Order := setSlot (fun _ => none) 0 ⟨true, 0, 1, -1, 0⟩

/-- Claim C3 as stated is false on the code: with a single eligible buy
priced -1.0 the spec selection rule picks it, but the scan, whose highest
price starts at the sentinel -1.0, selects nothing. -/
theorem c3_counterexample :
    (scanBuys cex3Slots 1).1 = none ∧
    specBestBuy cex3Slots 1 = some (0, ⟨true, 0, 1, -1, 0⟩) ∧
    (scanBuys cex3Slots 1).1 ≠ specBestBuy cex3Slots 1 := by
  decide

/-! ### Claim C5: scenario C -/

/-- Engine state after the three scenario C submissions: a buy of 30 at
100, then sells of 10 at 90 and 10 at 95, all on ticker 3. -/
def scenC : EngineState :=
  addOrder (addOrder (addOrder initialState true 3 30 100) false 3 10 90) false 3 10 95

/-- Claim C5: one matching pass on ticker 3 of scenario C reports exactly
two trades, 10 at 90 then 10 at 95, and leaves the buy with 10 remaining
and both sells fully filled (still resting in their slots). -/
theorem c5_scenario :
    (matchOrdersForTicker (scenC.tickers 3)).2 = [⟨10, 90⟩, ⟨10, 95⟩] ∧
    (matchOrdersForTicker (scenC.tickers 3)).1.buyOrders 0 =
      some ⟨true, 3, 10, 100, 0⟩ ∧
    (matchOrdersForTicker (scenC.tickers 3)).1.sellOrders 0 =
      some ⟨false, 3, 0, 90, 1⟩ ∧
    (matchOrdersForTicker (scenC.tickers 3)).1.sellOrders 1 =
      some ⟨false, 3, 0, 95, 2⟩ := by
  decide

/-! ### Claim C7: out-of-range submissions -/

/-- Claim C7: a submission whose ticker index is at least NUM_TICKERS
modifies no order book at all, yet still consumes one value of the global
sequence counter. -/
theorem c7_out_of_range (s : EngineState) (isBuy : Bool) (t q : Nat) (p : ℚ)
    (ht : NUM_TICKERS ≤ t) :
    addOrder s isBuy t q p = { s with globalTimestamp := s.globalTimestamp + 1 } := by
  simp [addOrder, ht]

/-- Witness for C7: ticker 5000 is rejected but bumps the counter. -/
theorem c7_witness :
    addOrder initialState true 5000 7 3 =
      { initialState with globalTimestamp := initialState.globalTimestamp + 1 } :=
  c7_out_of_range initialState true 5000 7 3 (by decide)

/-! ### Claims C6 and C10: capacity behaviour of the submission path -/

lemma addOrder_timestamp_in_range {s : EngineState} {isBuy : Bool} {t q : Nat} {p : ℚ}
    (ht : t < NUM_TICKERS) :
    (addOrder s isBuy t q p).globalTimestamp = s.globalTimestamp + 1 := by
  simp [addOrder, Nat.not_le.mpr ht]

lemma addOrder_tickers_in_range {s : EngineState} {isBuy : Bool} {t q : Nat} {p : ℚ}
    (ht : t < NUM_TICKERS) :
    (addOrder s isBuy t q p).tickers t =
      bookAddOrder (s.tickers t) (Order.mk isBuy t q p (s.globalTimestamp % 2 ^ 32)) := by
  simp [addOrder, Nat.not_le.mpr ht]

lemma bookAddOrder_buy_lt {b : Book} {o : Order} (ho : o.isBuy = true)
    (h : b.buyCount < MAX_ORDERS_PER_SIDE) :
    bookAddOrder b o =
      { b with buyOrders := setSlot b.buyOrders b.buyCount o, buyCount := b.buyCount + 1 } := by
  unfold bookAddOrder
  rw [ho]
  simp [h]

lemma bookAddOrder_buy_ge {b : Book} {o : Order} (ho : o.isBuy = true)
    (h : MAX_ORDERS_PER_SIDE ≤ b.buyCount) :
    bookAddOrder b o = { b with buyCount := b.buyCount + 1 } := by
  unfold bookAddOrder
  rw [ho]
  simp [Nat.not_lt.mpr h]

lemma setSlot_self (slots : Nat → Option Order) (i : Nat) (o : Order) :
    setSlot slots i o i = some o := by
  unfold setSlot
  rw [if_pos rfl]

lemma setSlot_ne {slots : Nat → Option Order} {i n : Nat} (o : Order) (h : n ≠ i) :
    setSlot slots i o n = slots n := by
  unfold setSlot
  rw [if_neg h]

/-- Behaviour of a run of buy submissions to ticker t, starting from any
state whose counter and timestamp agree with c: the counter always
advances, writes land at the consecutive claimed indices while below
capacity, and slots below c or at or beyond capacity are untouched. -/
lemma submitBuys_fold (t : Nat) (ht : t < NUM_TICKERS) :
    ∀ (qps : List (Nat × ℚ)) (s : EngineState) (c : Nat),
      s.globalTimestamp = c → (s.tickers t).buyCount = c →
      (qps.foldl (submitBuyStep t) s).globalTimestamp = c + qps.length ∧
      ((qps.foldl (submitBuyStep t) s).tickers t).buyCount = c + qps.length ∧
      (∀ i, i < c ∨ MAX_ORDERS_PER_SIDE ≤ i →
        ((qps.foldl (submitBuyStep t) s).tickers t).buyOrders i =
          (s.tickers t).buyOrders i) ∧
      (∀ k, k < qps.length → c + k < MAX_ORDERS_PER_SIDE →
        ((qps.foldl (submitBuyStep t) s).tickers t).buyOrders (c + k) =
          some (Order.mk true t (qps.getD k (0, 0)).1 (qps.getD k (0, 0)).2
            ((c + k) % 2 ^ 32)))
  | [], s, c, h1, h2 => by
    refine ⟨by simpa using h1, by simpa using h2, fun i _ => rfl, fun k hk _ => ?_⟩
    exact absurd hk (Nat.not_lt_zero k)
  | qp :: xs, s, c, h1, h2 => by
    simp only [List.foldl_cons]
    have hbook : (submitBuyStep t s qp).tickers t =
        bookAddOrder (s.tickers t) (Order.mk true t qp.1 qp.2 (c % 2 ^ 32)) := by
      unfold submitBuyStep
      rw [addOrder_tickers_in_range ht, h1]
    have hts : (submitBuyStep t s qp).globalTimestamp = c + 1 := by
      unfold submitBuyStep
      rw [addOrder_timestamp_in_range ht, h1]
    by_cases hc : c < MAX_ORDERS_PER_SIDE
    · have hbook2 : (submitBuyStep t s qp).tickers t =
          { s.tickers t with
              buyOrders := setSlot (s.tickers t).buyOrders c
                (Order.mk true t qp.1 qp.2 (c % 2 ^ 32)),
              buyCount := c + 1 } := by
        rw [hbook, bookAddOrder_buy_lt rfl (by rw [h2]; exact hc), h2]
      have hcount2 : ((submitBuyStep t s qp).tickers t).buyCount = c + 1 := by
        rw [hbook2]
      obtain ⟨ih1, ih2, ih3, ih4⟩ := submitBuys_fold t ht xs (submitBuyStep t s qp) (c + 1)
        hts hcount2
      refine ⟨?_, ?_, ?_, ?_⟩
      · rw [ih1, List.length_cons]
        omega
      · rw [ih2, List.length_cons]
        omega
      · intro i hi
        rw [ih3 i (by omega), hbook2]
        exact setSlot_ne _ (by omega)
      · intro k hk hklt
        cases k with
        | zero =>
          rw [Nat.add_zero]
          have h5 := ih3 c (by omega)
          rw [h5, hbook2]
          show setSlot (s.tickers t).buyOrders c _ c = _
          rw [setSlot_self]
          rfl
        | succ k2 =>
          have h6 := ih4 k2 (by simpa using Nat.lt_of_succ_lt_succ hk) (by omega)
          have h7 : c + 1 + k2 = c + (k2 + 1) := by omega
          rw [h7] at h6
          rw [h6]
          rfl
    · have hbook2 : (submitBuyStep t s qp).tickers t =
          { s.tickers t with buyCount := c + 1 } := by
        rw [hbook, bookAddOrder_buy_ge rfl (by rw [h2]; omega), h2]
      have hcount2 : ((submitBuyStep t s qp).tickers t).buyCount = c + 1 := by
        rw [hbook2]
      obtain ⟨ih1, ih2, ih3, ih4⟩ := submitBuys_fold t ht xs (submitBuyStep t s qp) (c + 1)
        hts hcount2
      refine ⟨?_, ?_, ?_, ?_⟩
      · rw [ih1, List.length_cons]
        omega
      · rw [ih2, List.length_cons]
        omega
      · intro i hi
        rw [ih3 i (by omega), hbook2]
      · intro k hk hklt
        omega

/-- Claim C10 is false on the code (the code is at fault): 1025 buy
submissions to one ticker leave its snapshotted buy counter at 1025,
strictly beyond the array capacity of 1024, so the scan loop of the next
matching pass, which runs its index up to the snapshotted counter, indexes
the 1024-slot array out of bounds. -/
theorem c10_bug :
    ((submitBuys 0 (List.replicate 1025 (1, 10))).tickers 0).buyCount = 1025 ∧
    MAX_ORDERS_PER_SIDE <
      ((submitBuys 0 (List.replicate 1025 (1, 10))).tickers 0).buyCount := by
  obtain ⟨_, h2, _, _⟩ :=
    submitBuys_fold 0 (by decide) (List.replicate 1025 (1, 10)) initialState 0 rfl rfl
  rw [List.length_replicate, Nat.zero_add] at h2
  unfold submitBuys
  rw [h2]
  exact ⟨rfl, by decide⟩

/-! ### Claim C8: quantity monotonicity and inertness of filled orders -/

/-- Evolution of one slot array: every occupied slot stays occupied, its
remaining quantity never increases, and a fully filled slot is frozen. -/
def SlotEvolves (before after : Nat → Option Order) : Prop :=
  ∀ k, (before k ≠ none → qtyAt after k ≤ qtyAt before k) ∧
    (before k ≠ none → after k ≠ none) ∧
    (before k ≠ none → qtyAt before k = 0 → after k = before k)

lemma slotEvolves_refl (slots : Nat → Option Order) : SlotEvolves slots slots :=
  fun _ => ⟨fun _ => le_refl _, fun h => h, fun _ _ => rfl⟩

lemma slotEvolves_trans {a b c : Nat → Option Order} (h1 : SlotEvolves a b)
    (h2 : SlotEvolves b c) : SlotEvolves a c := by
  intro k
  obtain ⟨h1a, h1b, h1c⟩ := h1 k
  obtain ⟨h2a, h2b, h2c⟩ := h2 k
  refine ⟨fun hocc => le_trans (h2a (h1b hocc)) (h1a hocc),
    fun hocc => h2b (h1b hocc), fun hocc hq => ?_⟩
  have he := h1c hocc hq
  have hq2 : qtyAt b k = 0 := by
    unfold qtyAt
    rw [he]
    exact hq
  rw [h2c (h1b hocc) hq2, he]

lemma slotEvolves_of_untouched {before after : Nat → Option Order}
    (h : ∀ k, before k ≠ none → after k = before k) : SlotEvolves before after := by
  intro k
  by_cases hocc : before k = none
  · exact ⟨fun hx => absurd hocc hx, fun hx => absurd hocc hx, fun hx _ => absurd hocc hx⟩
  · have he := h k hocc
    refine ⟨fun _ => ?_, fun _ => ?_, fun _ _ => he⟩
    · unfold qtyAt
      rw [he]
    · rw [he]
      exact hocc

lemma matchStep_slot_evolves {b b1 : Book} {tr : Trade} (h : matchStep b = some (b1, tr)) :
    SlotEvolves b.buyOrders b1.buyOrders ∧ SlotEvolves b.sellOrders b1.sellOrders := by
  obtain ⟨i, bb, j, bs, _, _, _, _, hb1⟩ := matchStep_some_inv h
  subst hb1
  constructor
  · exact fun k => ⟨fun _ => qtyAt_decSlot_le _ _ _ _, fun hocc => decSlot_isSome hocc,
      fun _ hq => decSlot_zero_stable hq⟩
  · exact fun k => ⟨fun _ => qtyAt_decSlot_le _ _ _ _, fun hocc => decSlot_isSome hocc,
      fun _ hq => decSlot_zero_stable hq⟩

lemma matchLoop_slot_evolves : ∀ (fuel : Nat) (b : Book),
    SlotEvolves b.buyOrders (matchLoop fuel b).1.buyOrders ∧
    SlotEvolves b.sellOrders (matchLoop fuel b).1.sellOrders
  | 0, b => ⟨slotEvolves_refl _, slotEvolves_refl _⟩
  | Nat.succ fuel, b => by
    cases hs : matchStep b with
    | none =>
      rw [matchLoop_none hs]
      exact ⟨slotEvolves_refl _, slotEvolves_refl _⟩
    | some p =>
      obtain ⟨b1, tr⟩ := p
      rw [matchLoop_some hs]
      have h1 := matchStep_slot_evolves hs
      have h2 := matchLoop_slot_evolves fuel b1
      exact ⟨slotEvolves_trans h1.1 h2.1, slotEvolves_trans h1.2 h2.2⟩

lemma pass_slot_evolves (b : Book) :
    SlotEvolves b.buyOrders (matchOrdersForTicker b).1.buyOrders ∧
    SlotEvolves b.sellOrders (matchOrdersForTicker b).1.sellOrders :=
  matchLoop_slot_evolves _ b

lemma bookAddOrder_sell_lt {b : Book} {o : Order} (ho : o.isBuy = false)
    (h : b.sellCount < MAX_ORDERS_PER_SIDE) :
    bookAddOrder b o =
      { b with sellOrders := setSlot b.sellOrders b.sellCount o, sellCount := b.sellCount + 1 } := by
  unfold bookAddOrder
  rw [ho]
  simp [h]

lemma bookAddOrder_sell_ge {b : Book} {o : Order} (ho : o.isBuy = false)
    (h : MAX_ORDERS_PER_SIDE ≤ b.sellCount) :
    bookAddOrder b o = { b with sellCount := b.sellCount + 1 } := by
  unfold bookAddOrder
  rw [ho]
  simp [Nat.not_lt.mpr h]

/-- A submission never rewrites an occupied slot: the claimed index is the
side counter, and well-formedness puts every occupied slot below it. -/
lemma bookAddOrder_untouched {b : Book} {o : Order} (hwf : bookWF b) (side : Bool)
    (k : Nat) (hocc : sideSlots b side k ≠ none) :
    sideSlots (bookAddOrder b o) side k = sideSlots b side k := by
  cases ho : o.isBuy with
  | true =>
    by_cases hcap : b.buyCount < MAX_ORDERS_PER_SIDE
    · rw [bookAddOrder_buy_lt ho hcap]
      cases side with
      | false => rfl
      | true =>
        have hocc2 : b.buyOrders k ≠ none := hocc
        have hk : k < b.buyCount := by
          by_contra hge
          exact hocc2 (hwf.1 k (by omega))
        show setSlot b.buyOrders b.buyCount o k = b.buyOrders k
        exact setSlot_ne _ (by omega)
    · rw [bookAddOrder_buy_ge ho (by omega)]
      cases side with
      | false => rfl
      | true => rfl
  | false =>
    by_cases hcap : b.sellCount < MAX_ORDERS_PER_SIDE
    · rw [bookAddOrder_sell_lt ho hcap]
      cases side with
      | true => rfl
      | false =>
        have hocc2 : b.sellOrders k ≠ none := hocc
        have hk : k < b.sellCount := by
          by_contra hge
          exact hocc2 (hwf.2 k (by omega))
        show setSlot b.sellOrders b.sellCount o k = b.sellOrders k
        exact setSlot_ne _ (by omega)
    · rw [bookAddOrder_sell_ge ho (by omega)]
      cases side with
      | true => rfl
      | false => rfl

/-- Rejected submissions change no book. -/
lemma addOrder_reject {s : EngineState} {isBuy : Bool} {t q : Nat} {p : ℚ}
    (ht : NUM_TICKERS ≤ t) :
    addOrder s isBuy t q p = { s with globalTimestamp := s.globalTimestamp + 1 } := by
  simp [addOrder, ht]

lemma addOrder_tickers_fun {s : EngineState} {isBuy : Bool} {t q : Nat} {p : ℚ}
    (ht : t < NUM_TICKERS) (n : Nat) :
    (addOrder s isBuy t q p).tickers n =
      if n = t then
        bookAddOrder (s.tickers t) (Order.mk isBuy t q p (s.globalTimestamp % 2 ^ 32))
      else s.tickers n := by
  simp [addOrder, Nat.not_le.mpr ht]

lemma runOp_tickers_matchPass (s : EngineState) (t n : Nat) :
    (runOp s (.matchPass t)).tickers n =
      if n = t then (matchOrdersForTicker (s.tickers t)).1 else s.tickers n := rfl

/-- Evolution of the whole engine state: every slot of every book evolves. -/
def StateEvolves (s1 s2 : EngineState) : Prop :=
  ∀ t side, SlotEvolves (sideSlots (s1.tickers t) side) (sideSlots (s2.tickers t) side)

lemma stateEvolves_refl (s : EngineState) : StateEvolves s s :=
  fun _ _ => slotEvolves_refl _

lemma stateEvolves_trans {s1 s2 s3 : EngineState} (h1 : StateEvolves s1 s2)
    (h2 : StateEvolves s2 s3) : StateEvolves s1 s3 :=
  fun t side => slotEvolves_trans (h1 t side) (h2 t side)

lemma addOrder_evolves {s : EngineState} (hwf : stateWF s) (isBuy : Bool) (t q : Nat)
    (p : ℚ) : StateEvolves s (addOrder s isBuy t q p) := by
  by_cases ht : NUM_TICKERS ≤ t
  · rw [addOrder_reject ht]
    exact fun t2 side => slotEvolves_refl _
  · intro t2 side
    by_cases h2 : t2 = t
    · subst h2
      rw [addOrder_tickers_fun (Nat.not_le.mp ht) t2, if_pos rfl]
      exact slotEvolves_of_untouched (fun k hocc =>
        bookAddOrder_untouched (hwf t2) side k hocc)
    · rw [addOrder_tickers_fun (Nat.not_le.mp ht) t2, if_neg h2]
      exact slotEvolves_refl _

lemma matchPass_evolves (s : EngineState) (t : Nat) :
    StateEvolves s (runOp s (.matchPass t)) := by
  intro t2 side
  rw [runOp_tickers_matchPass]
  by_cases h2 : t2 = t
  · subst h2
    rw [if_pos rfl]
    cases side with
    | true => exact (pass_slot_evolves (s.tickers t2)).1
    | false => exact (pass_slot_evolves (s.tickers t2)).2
  · rw [if_neg h2]
    exact slotEvolves_refl _

lemma runOp_evolves {s : EngineState} (hwf : stateWF s) (op : EngineOp) :
    StateEvolves s (runOp s op) := by
  cases op with
  | add isBuy t q p => exact addOrder_evolves hwf isBuy t q p
  | matchPass t => exact matchPass_evolves s t

/-! Preservation of well-formedness. -/

lemma bookAddOrder_WF {b : Book} {o : Order} (hwf : bookWF b) : bookWF (bookAddOrder b o) := by
  cases ho : o.isBuy with
  | true =>
    by_cases hcap : b.buyCount < MAX_ORDERS_PER_SIDE
    · rw [bookAddOrder_buy_lt ho hcap]
      refine ⟨fun i hi => ?_, fun i hi => ?_⟩
      · have hi2 : b.buyCount + 1 ≤ i := hi
        show setSlot b.buyOrders b.buyCount o i = none
        rw [setSlot_ne _ (by omega)]
        exact hwf.1 i (by omega)
      · exact hwf.2 i hi
    · rw [bookAddOrder_buy_ge ho (by omega)]
      refine ⟨fun i hi => ?_, fun i hi => ?_⟩
      · have hi2 : b.buyCount + 1 ≤ i := hi
        exact hwf.1 i (by omega)
      · exact hwf.2 i hi
  | false =>
    by_cases hcap : b.sellCount < MAX_ORDERS_PER_SIDE
    · rw [bookAddOrder_sell_lt ho hcap]
      refine ⟨fun i hi => ?_, fun i hi => ?_⟩
      · exact hwf.1 i hi
      · have hi2 : b.sellCount + 1 ≤ i := hi
        show setSlot b.sellOrders b.sellCount o i = none
        rw [setSlot_ne _ (by omega)]
        exact hwf.2 i (by omega)
    · rw [bookAddOrder_sell_ge ho (by omega)]
      refine ⟨fun i hi => ?_, fun i hi => ?_⟩
      · exact hwf.1 i hi
      · have hi2 : b.sellCount + 1 ≤ i := hi
        exact hwf.2 i (by omega)

lemma matchStep_WF {b b1 : Book} {tr : Trade} (h : matchStep b = some (b1, tr))
    (hwf : bookWF b) : bookWF b1 := by
  obtain ⟨i, bb, j, bs, hb, hs, _, _, hb1⟩ := matchStep_some_inv h
  have hbi := (scanBuys_some hb).1
  have hsj := (scanSells_some hs).1
  subst hb1
  refine ⟨fun k hk => ?_, fun k hk => ?_⟩
  · have hk2 : b.buyCount ≤ k := hk
    show decSlot b.buyOrders i _ k = none
    rw [decSlot_ne (by omega)]
    exact hwf.1 k hk2
  · have hk2 : b.sellCount ≤ k := hk
    show decSlot b.sellOrders j _ k = none
    rw [decSlot_ne (by omega)]
    exact hwf.2 k hk2

lemma matchLoop_WF : ∀ (fuel : Nat) (b : Book), bookWF b → bookWF (matchLoop fuel b).1
  | 0, _, h => h
  | Nat.succ fuel, b, h => by
    cases hs : matchStep b with
    | none =>
      rw [matchLoop_none hs]
      exact h
    | some p =>
      obtain ⟨b1, tr⟩ := p
      rw [matchLoop_some hs]
      exact matchLoop_WF fuel b1 (matchStep_WF hs h)

lemma pass_WF {b : Book} (h : bookWF b) : bookWF (matchOrdersForTicker b).1 :=
  matchLoop_WF _ b h

lemma stateWF_initial : stateWF initialState :=
  fun _ => ⟨fun _ _ => rfl, fun _ _ => rfl⟩

lemma stateWF_runOp {s : EngineState} (hwf : stateWF s) (op : EngineOp) :
    stateWF (runOp s op) := by
  cases op with
  | add isBuy t q p =>
    by_cases ht : NUM_TICKERS ≤ t
    · show stateWF (addOrder s isBuy t q p)
      rw [addOrder_reject ht]
      exact fun t2 => hwf t2
    · intro t2
      show bookWF ((addOrder s isBuy t q p).tickers t2)
      rw [addOrder_tickers_fun (Nat.not_le.mp ht) t2]
      by_cases h2 : t2 = t
      · rw [if_pos h2]
        exact bookAddOrder_WF (hwf t)
      · rw [if_neg h2]
        exact hwf t2
  | matchPass t =>
    intro t2
    rw [runOp_tickers_matchPass]
    by_cases h2 : t2 = t
    · rw [if_pos h2]
      exact pass_WF (hwf t)
    · rw [if_neg h2]
      exact hwf t2

lemma stateWF_runOps : ∀ (ops : List EngineOp) (s : EngineState), stateWF s →
    stateWF (ops.foldl runOp s)
  | [], _, h => h
  | op :: rest, s, h => by
    simp only [List.foldl_cons]
    exact stateWF_runOps rest _ (stateWF_runOp h op)

lemma runOps_evolves : ∀ (ops : List EngineOp) (s : EngineState), stateWF s →
    StateEvolves s (ops.foldl runOp s)
  | [], s, _ => stateEvolves_refl s
  | op :: rest, s, h => by
    simp only [List.foldl_cons]
    exact stateEvolves_trans (runOp_evolves h op) (runOps_evolves rest _ (stateWF_runOp h op))

lemma matchStep_qty_le_buy {b b1 : Book} {tr : Trade} {i : Nat} {o : Order}
    (h : matchStep b = some (b1, tr))
    (hb : (scanBuys b.buyOrders b.buyCount).1 = some (i, o)) : tr.qty ≤ o.quantity := by
  obtain ⟨i2, bb2, j2, bs2, hb2, _, _, htr2, _⟩ := matchStep_some_inv h
  rw [hb] at hb2
  simp only [Option.some.injEq, Prod.mk.injEq] at hb2
  obtain ⟨rfl, rfl⟩ := hb2
  subst htr2
  exact Nat.min_le_left _ _

lemma matchStep_qty_le_sell {b b1 : Book} {tr : Trade} {j : Nat} {o : Order}
    (h : matchStep b = some (b1, tr))
    (hs : (scanSells b.sellOrders b.sellCount).1 = some (j, o)) : tr.qty ≤ o.quantity := by
  obtain ⟨i2, bb2, j2, bs2, _, hs2, _, htr2, _⟩ := matchStep_some_inv h
  rw [hs] at hs2
  simp only [Option.some.injEq, Prod.mk.injEq] at hs2
  obtain ⟨rfl, rfl⟩ := hs2
  subst htr2
  exact Nat.min_le_right _ _

/-- Claim C8: over any sequence of driver operations from a well-formed
state, an occupied slot stays occupied, its remaining quantity never
increases, and a fully filled order is frozen in its slot; moreover the
scans never select a zero-quantity order and every executed decrement is
bounded by the selected order's remaining quantity, so quantities never
go below zero. -/
theorem c8_monotone (s : EngineState) (ops : List EngineOp) (side : Bool) (t k : Nat)
    (hwf : stateWF s) (hocc : sideSlots (s.tickers t) side k ≠ none) :
    sideSlots ((ops.foldl runOp s).tickers t) side k ≠ none ∧
    qtyAt (sideSlots ((ops.foldl runOp s).tickers t) side) k ≤
      qtyAt (sideSlots (s.tickers t) side) k ∧
    (qtyAt (sideSlots (s.tickers t) side) k = 0 →
      sideSlots ((ops.foldl runOp s).tickers t) side k = sideSlots (s.tickers t) side k) ∧
    (∀ slots count i o, (scanBuys slots count).1 = some (i, o) → 0 < o.quantity) ∧
    (∀ slots count j o, (scanSells slots count).1 = some (j, o) → 0 < o.quantity) ∧
    (∀ b b1 tr i o, matchStep b = some (b1, tr) →
      (scanBuys b.buyOrders b.buyCount).1 = some (i, o) → tr.qty ≤ o.quantity) ∧
    (∀ b b1 tr j o, matchStep b = some (b1, tr) →
      (scanSells b.sellOrders b.sellCount).1 = some (j, o) → tr.qty ≤ o.quantity) := by
  obtain ⟨h1, h2, h3⟩ := runOps_evolves ops s hwf t side k
  exact ⟨h2 hocc, h1 hocc, h3 hocc,
    fun slots count i o hx => (scanBuys_some hx).2.2.1,
    fun slots count j o hx => (scanSells_some hx).2.2.1,
    fun b b1 tr i o hx hb => matchStep_qty_le_buy hx hb,
    fun b b1 tr j o hx hs => matchStep_qty_le_sell hx hs⟩

/-- One buy resting on ticker 5, used as the C8 witness state. -/
def s8 : EngineState := runOp initialState (.add true 5 7 50)

/-- Witness for C8: after a matching pass on ticker 5 the resting buy is
still in slot 0 with no more than its original quantity. -/
theorem c8_witness :
    sideSlots (([EngineOp.matchPass 5].foldl runOp s8).tickers 5) true 0 ≠ none ∧
    qtyAt (sideSlots (([EngineOp.matchPass 5].foldl runOp s8).tickers 5) true) 0 ≤
      qtyAt (sideSlots (s8.tickers 5) true) 0 := by
  have h := c8_monotone s8 [EngineOp.matchPass 5] true 5 0
    (stateWF_runOp stateWF_initial (.add true 5 7 50)) (by decide)
  exact ⟨h.1, h.2.1⟩

/-! ### Claim C6, over either side of a book -/

/-- The claim counter of one side of a book (true = buy). -/
def sideCount (b : Book) (side : Bool) : Nat :=
  if side then b.buyCount else b.sellCount

/-- One submission of a (quantity, price) pair on the given side of
ticker t. -/
def submitSideStep (side : Bool) (t : Nat) (s : EngineState) (qp : Nat × ℚ) : EngineState :=
  addOrder s side t qp.1 qp.2

/-- A sequence of same-side submissions to one ticker from process
start. -/
def submitSide (side : Bool) (t : Nat) (qps : List (Nat × ℚ)) : EngineState :=
  qps.foldl (submitSideStep side t) initialState

/-- bookAddOrder below capacity, for either side: the matching counter is
incremented and the order is stored at the claimed index of that side. -/
lemma bookAddOrder_side_lt {b : Book} {o : Order} {side : Bool} (ho : o.isBuy = side)
    (h : sideCount b side < MAX_ORDERS_PER_SIDE) :
    sideCount (bookAddOrder b o) side = sideCount b side + 1 ∧
    sideSlots (bookAddOrder b o) side = setSlot (sideSlots b side) (sideCount b side) o := by
  cases side with
  | true =>
    have h2 : b.buyCount < MAX_ORDERS_PER_SIDE := h
    rw [bookAddOrder_buy_lt ho h2]
    exact ⟨rfl, rfl⟩
  | false =>
    have h2 : b.sellCount < MAX_ORDERS_PER_SIDE := h
    rw [bookAddOrder_sell_lt ho h2]
    exact ⟨rfl, rfl⟩

/-- bookAddOrder at or beyond capacity, for either side: the matching
counter still advances but the side array is untouched. -/
lemma bookAddOrder_side_ge {b : Book} {o : Order} {side : Bool} (ho : o.isBuy = side)
    (h : MAX_ORDERS_PER_SIDE ≤ sideCount b side) :
    sideCount (bookAddOrder b o) side = sideCount b side + 1 ∧
    sideSlots (bookAddOrder b o) side = sideSlots b side := by
  cases side with
  | true =>
    have h2 : MAX_ORDERS_PER_SIDE ≤ b.buyCount := h
    rw [bookAddOrder_buy_ge ho h2]
    exact ⟨rfl, rfl⟩
  | false =>
    have h2 : MAX_ORDERS_PER_SIDE ≤ b.sellCount := h
    rw [bookAddOrder_sell_ge ho h2]
    exact ⟨rfl, rfl⟩

/-- Behaviour of a run of same-side submissions to ticker t, starting
from any state whose side counter and timestamp agree with c: the counter
always advances, writes land at the consecutive claimed indices while
below capacity, and slots below c or at or beyond capacity are
untouched. -/
lemma submitSide_fold (side : Bool) (t : Nat) (ht : t < NUM_TICKERS) :
    ∀ (qps : List (Nat × ℚ)) (s : EngineState) (c : Nat),
      s.globalTimestamp = c → sideCount (s.tickers t) side = c →
      (qps.foldl (submitSideStep side t) s).globalTimestamp = c + qps.length ∧
      sideCount ((qps.foldl (submitSideStep side t) s).tickers t) side = c + qps.length ∧
      (∀ i, i < c ∨ MAX_ORDERS_PER_SIDE ≤ i →
        sideSlots ((qps.foldl (submitSideStep side t) s).tickers t) side i =
          sideSlots (s.tickers t) side i) ∧
      (∀ k, k < qps.length → c + k < MAX_ORDERS_PER_SIDE →
        sideSlots ((qps.foldl (submitSideStep side t) s).tickers t) side (c + k) =
          some (Order.mk side t (qps.getD k (0, 0)).1 (qps.getD k (0, 0)).2
            ((c + k) % 2 ^ 32)))
  | [], s, c, h1, h2 => by
    refine ⟨by simpa using h1, by simpa using h2, fun i _ => rfl, fun k hk _ => ?_⟩
    exact absurd hk (Nat.not_lt_zero k)
  | qp :: xs, s, c, h1, h2 => by
    simp only [List.foldl_cons]
    have hbook : (submitSideStep side t s qp).tickers t =
        bookAddOrder (s.tickers t) (Order.mk side t qp.1 qp.2 (c % 2 ^ 32)) := by
      unfold submitSideStep
      rw [addOrder_tickers_in_range ht, h1]
    have hts : (submitSideStep side t s qp).globalTimestamp = c + 1 := by
      unfold submitSideStep
      rw [addOrder_timestamp_in_range ht, h1]
    by_cases hc : c < MAX_ORDERS_PER_SIDE
    · obtain ⟨hcnt, hsl⟩ :=
        bookAddOrder_side_lt (o := Order.mk side t qp.1 qp.2 (c % 2 ^ 32))
          (b := s.tickers t) rfl (by rw [h2]; exact hc)
      have hcount2 : sideCount ((submitSideStep side t s qp).tickers t) side = c + 1 := by
        rw [hbook, hcnt, h2]
      have hslots2 : sideSlots ((submitSideStep side t s qp).tickers t) side =
          setSlot (sideSlots (s.tickers t) side) c
            (Order.mk side t qp.1 qp.2 (c % 2 ^ 32)) := by
        rw [hbook, hsl, h2]
      obtain ⟨ih1, ih2, ih3, ih4⟩ :=
        submitSide_fold side t ht xs (submitSideStep side t s qp) (c + 1) hts hcount2
      refine ⟨?_, ?_, ?_, ?_⟩
      · rw [ih1, List.length_cons]
        omega
      · rw [ih2, List.length_cons]
        omega
      · intro i hi
        rw [ih3 i (by omega), hslots2]
        exact setSlot_ne _ (by omega)
      · intro k hk hklt
        cases k with
        | zero =>
          rw [Nat.add_zero]
          rw [ih3 c (by omega), hslots2, setSlot_self]
          rfl
        | succ k2 =>
          have h6 := ih4 k2 (by simpa using Nat.lt_of_succ_lt_succ hk) (by omega)
          have h7 : c + 1 + k2 = c + (k2 + 1) := by omega
          rw [h7] at h6
          rw [h6]
          rfl
    · obtain ⟨hcnt, hsl⟩ :=
        bookAddOrder_side_ge (o := Order.mk side t qp.1 qp.2 (c % 2 ^ 32))
          (b := s.tickers t) rfl (by rw [h2]; omega)
      have hcount2 : sideCount ((submitSideStep side t s qp).tickers t) side = c + 1 := by
        rw [hbook, hcnt, h2]
      have hslots2 : sideSlots ((submitSideStep side t s qp).tickers t) side =
          sideSlots (s.tickers t) side := by
        rw [hbook, hsl]
      obtain ⟨ih1, ih2, ih3, ih4⟩ :=
        submitSide_fold side t ht xs (submitSideStep side t s qp) (c + 1) hts hcount2
      refine ⟨?_, ?_, ?_, ?_⟩
      · rw [ih1, List.length_cons]
        omega
      · rw [ih2, List.length_cons]
        omega
      · intro i hi
        rw [ih3 i (by omega), hslots2]
      · intro k hk hklt
        omega

/-- Claim C6: for either side of any instrument, submissions from process
start land in distinct consecutive slots of that side's array while the
claimed index is below capacity; submissions past capacity are stored
nowhere, leave the first 1024 slots holding exactly the first 1024 orders
of that side, and still advance that side's counter past capacity. -/
theorem c6_capacity (side : Bool) (t : Nat) (qps : List (Nat × ℚ)) (ht : t < NUM_TICKERS) :
    sideCount ((submitSide side t qps).tickers t) side = qps.length ∧
    (∀ k, k < qps.length → k < MAX_ORDERS_PER_SIDE →
      sideSlots ((submitSide side t qps).tickers t) side k =
        some (Order.mk side t (qps.getD k (0, 0)).1 (qps.getD k (0, 0)).2 k)) ∧
    (∀ i, MAX_ORDERS_PER_SIDE ≤ i →
      sideSlots ((submitSide side t qps).tickers t) side i = none) := by
  obtain ⟨h1, h2, h3, h4⟩ :=
    submitSide_fold side t ht qps initialState 0 rfl (by cases side <;> rfl)
  unfold submitSide
  rw [Nat.zero_add] at h2
  refine ⟨h2, fun k hk hklt => ?_, fun i hi => ?_⟩
  · have h5 := h4 k hk (by omega)
    rw [Nat.zero_add] at h5
    rw [h5, Nat.mod_eq_of_lt (by simp only [MAX_ORDERS_PER_SIDE] at hklt; omega)]
  · rw [h3 i (Or.inr hi)]
    cases side with
    | true => rfl
    | false => rfl

/-- Witness for C6 on the sell side: two sell submissions to ticker 0
land in sell slots 0 and 1, the sell counter reads 2, and slot 2000 is
empty. -/
theorem c6_witness :
    sideCount ((submitSide false 0 [(5, 7), (8, 9)]).tickers 0) false = 2 ∧
    sideSlots ((submitSide false 0 [(5, 7), (8, 9)]).tickers 0) false 0 =
      some (Order.mk false 0 5 7 0) ∧
    sideSlots ((submitSide false 0 [(5, 7), (8, 9)]).tickers 0) false 1 =
      some (Order.mk false 0 8 9 1) ∧
    sideSlots ((submitSide false 0 [(5, 7), (8, 9)]).tickers 0) false 2000 = none := by
  have h := c6_capacity false 0 [(5, 7), (8, 9)] (by decide)
  exact ⟨h.1, h.2.1 0 (by decide) (by decide), h.2.1 1 (by decide) (by decide),
    h.2.2 2000 (by decide)⟩

end StockEngine
